import Mathlib

/-!
Shallow embedding of the worker-model-sync-tts service
(src/services/ModelSyncService.ts, src/services/S3Service.ts,
src/services/HealthCheckService.ts, src/utils/fileValidator.ts).

Asynchronous sequential TypeScript is embedded as pure Lean functions over
an explicit environment: filesystem state is a map from path strings to
optional file metadata, AWS SDK calls and Node stream outcomes are oracle
fields of environment structures, and a JavaScript `throw` is an
`Except` error value. Every definition mirrors the control flow of the
corresponding source function.
-/

namespace ModelSync

/-- Metadata of a local file, as observed by `fs.stat`: size in bytes and
modification time in epoch milliseconds. -/
structure FileStat where
  size : Nat
  mtime : Int
  deriving DecidableEq

/-- A local filesystem: each path is either absent (`none` — `fs.stat`
throws, `fs.pathExists` is false) or a file with metadata. -/
def Fs : Type := String → Option FileStat

/-- Whether `fs.pathExists` reports the path as present. -/
def pathExists (fs : Fs) (p : String) : Bool := (fs p).isSome

/-- Boolean list-prefix test (used for path containment reasoning). -/
def isPrefixB [BEq α] : List α → List α → Bool
  | [], _ => true
  | _ :: _, [] => false
  | a :: as, b :: bs => a == b && isPrefixB as bs

/-- Boolean suffix test on character lists, mirroring JavaScript
`String.prototype.endsWith`. -/
def isSuffixB (suf l : List Char) : Bool := isPrefixB suf.reverse l.reverse

/-- Boolean infix (substring) test on character lists, mirroring JavaScript
`String.prototype.includes`. -/
def isInfixB (sub : List Char) : List Char → Bool
  | [] => sub.isEmpty
  | c :: cs => isPrefixB sub (c :: cs) || isInfixB sub cs

/-- JavaScript `s.includes(sub)` as substring containment. -/
def jsIncludes (s sub : String) : Bool := isInfixB sub.data s.data

/-- Split a character list on `'/'`, mirroring JavaScript
`key.split('/')`: the empty list yields one empty segment and adjacent
separators produce empty segments. -/
def splitSlash : List Char → List (List Char)
  | [] => [[]]
  | c :: cs =>
    if c = '/' then [] :: splitSlash cs
    else match splitSlash cs with
      | [] => [[c]]
      | s :: rest => (c :: s) :: rest

/-- JavaScript `key.split('/')` on Lean strings. -/
def jsSplit (s : String) : List String := (splitSlash s.data).map (fun cs => String.mk cs)

/-- One step of filesystem path normalization over raw segments: empty
segments and `.` are dropped, `..` pops the last kept segment. -/
def normStep (acc : List (List Char)) (s : List Char) : List (List Char) :=
  if s = [] then acc
  else if s = ['.'] then acc
  else if s = ['.', '.'] then acc.dropLast
  else acc ++ [s]

/-- Left fold of `normStep` over a segment list. -/
def normAux (acc : List (List Char)) : List (List Char) → List (List Char)
  | [] => acc
  | s :: rest => normAux (normStep acc s) rest

/-- Normalized segment list of a path string: split on `/`, drop empty and
`.` segments, resolve `..` segments. -/
def normalizePath (p : String) : List (List Char) := normAux [] (splitSlash p.data)

/-- Whether the path `p`, after filesystem normalization, lies inside the
directory tree rooted at `base`. -/
def underBase (base p : String) : Bool := isPrefixB (normalizePath base) (normalizePath p)

/-! ## FileValidator (src/utils/fileValidator.ts) -/

/-- The fixed extension list of `FileValidator.isModelFile`. -/
def modelExtensions : List String :=
  [".pth", ".bin", ".onnx", ".safetensors", ".pkl", ".json", ".txt"]

/-- `FileValidator.isModelFile`: the lowercased key ends with one of the
recognized model/config extensions. -/
def isModelFile (key : String) : Bool :=
  modelExtensions.any (fun ext => isSuffixB ext.data (key.data.map Char.toLower))

/-- `FileValidator.verifyFileIntegrity`. `fs` is the filesystem at the
time of the call; `sha` is the outcome of `calculateSHA256` (which can
reject with a stream error). The body's `try`/`catch` returns `false` on
any thrown error, in particular when `fs.stat` throws because the path is
absent. The JavaScript truthiness guards `if (expectedSize && ...)` and
`if (expectedHash)` are embedded exactly: a missing argument or the falsy
values `0` / `""` skip the corresponding check. -/
def verifyFileIntegrity (fs : Fs) (sha : String → Except Unit String) (filePath : String)
    (expectedSize : Option Nat) (expectedHash : Option String) : Bool :=
  match fs filePath with
  | none => false
  | some stats =>
    if expectedSize.getD 0 ≠ 0 ∧ stats.size ≠ expectedSize.getD 0 then false
    else if expectedHash.getD "" ≠ "" then
      match sha filePath with
      | .error _ => false
      | .ok actualHash => actualHash == expectedHash.getD ""
    else true

/-- `FileValidator.cleanupTempFile`: if the path exists, attempt
`fs.remove`; `removeErr` says whether that removal primitive throws for a
given path, in which case the error is logged and swallowed, leaving the
filesystem unchanged. The function itself never throws, so its embedding
is total. -/
def cleanupTempFile (fs : Fs) (removeErr : String → Bool) (p : String) : Fs :=
  match fs p with
  | some _ => if removeErr p then fs else fun q => if q = p then none else fs q
  | none => fs

/-! ## S3Service (src/services/S3Service.ts) -/

/-- Remote object metadata as assembled by `S3Service.getObjectInfo` from
a successful `HeadObject` response. -/
structure RemoteInfo where
  size : Nat
  lastModified : Int
  etag : String
  deriving DecidableEq

/-- Outcome of the `HeadObject` call inside `getObjectInfo`: the object is
absent (`getObjectInfo` returns `null`), the call throws some other error
(`getObjectInfo` rethrows), or it succeeds with metadata. -/
inductive HeadResult where
  | notFound
  | headErr
  | found (info : RemoteInfo)
  deriving DecidableEq

/-- The result object returned by `S3Service.downloadFile` on both the
success and the failure path. -/
structure DownloadResult where
  success : Bool
  size : Nat
  duration : Nat
  deriving DecidableEq

/-- Outcome of the `GetObject` call in `downloadFile`: the send throws, the
response has no body, or a body stream is available. -/
inductive GetBodyResult where
  | getErr
  | noBody
  | okBody
  deriving DecidableEq

/-- Observable events of one `downloadFile` run, in program order:
creation of the staging file, resolution of the awaited `pipeline`
(the completion signal that the write stream is flushed and closed),
the `stat` performed by verification, the verification verdict, the
atomic rename, and a `cleanupTempFile` call on the staging file. -/
inductive DlEv where
  | tempCreated
  | writeComplete
  | verifyStat
  | verifyOk
  | verifyFail
  | renamed
  | cleanup
  deriving DecidableEq

/-- Environment of one `downloadFile` invocation: outcomes of the AWS and
filesystem primitives it awaits, in the order the code reaches them.
`bytesTransferred` is the final value of the `downloadedSize` counter
accumulated by the body stream's data events (it stays `0` when streaming
never starts). `fsAfterWrite` is the filesystem state at the point
verification/cleanup of the staging file runs. `elapsed` is the wall time
`Date.now() - startTime` at the return point. -/
structure DlEnv where
  head : HeadResult
  ensureDirOk : Bool
  hasSpace : Bool
  getBody : GetBodyResult
  bytesTransferred : Nat
  pipelineOk : Bool
  fsAfterWrite : Fs
  sha : String → Except Unit String
  removeErr : String → Bool
  moveOk : Bool
  elapsed : Nat

/-- Full observable outcome of one `downloadFile` run: the returned result
object, whether the staging file still exists after the call, and the
event trace. -/
structure DlOutcome where
  result : DownloadResult
  tempExists : Bool
  trace : List DlEv

/-- `S3Service.downloadFile`: the download–verify–install protocol. The
outer `try`/`catch` converts every thrown error into a
`success := false` result, so the embedding is a total function. The
staging path is `localPath ++ ".tmp"`; any failure inside the inner
`try` (pipeline error, integrity failure, rename failure) runs
`cleanupTempFile` on it before the failure result is produced.
Verification reuses `verifyFileIntegrity` with the remote size and no
hash, exactly as the source calls it. -/
def downloadFile (env : DlEnv) (s3Key localPath : String) : DlOutcome :=
  let tempPath := localPath ++ ".tmp"
  match env.head with
  | .headErr => ⟨⟨false, 0, env.elapsed⟩, false, []⟩
  | .notFound => ⟨⟨false, 0, env.elapsed⟩, false, []⟩
  | .found info =>
    if ¬ env.ensureDirOk then ⟨⟨false, 0, env.elapsed⟩, false, []⟩
    else if ¬ env.hasSpace then ⟨⟨false, 0, env.elapsed⟩, false, []⟩
    else match env.getBody with
    | .getErr => ⟨⟨false, 0, env.elapsed⟩, false, []⟩
    | .noBody => ⟨⟨false, 0, env.elapsed⟩, false, []⟩
    | .okBody =>
      if ¬ env.pipelineOk then
        let fs2 := cleanupTempFile env.fsAfterWrite env.removeErr tempPath
        ⟨⟨false, env.bytesTransferred, env.elapsed⟩, pathExists fs2 tempPath,
          [.tempCreated, .cleanup]⟩
      else if ¬ verifyFileIntegrity env.fsAfterWrite env.sha tempPath (some info.size) none then
        let fs2 := cleanupTempFile (cleanupTempFile env.fsAfterWrite env.removeErr tempPath)
          env.removeErr tempPath
        ⟨⟨false, env.bytesTransferred, env.elapsed⟩, pathExists fs2 tempPath,
          [.tempCreated, .writeComplete, .verifyStat, .verifyFail, .cleanup, .cleanup]⟩
      else if ¬ env.moveOk then
        let fs2 := cleanupTempFile env.fsAfterWrite env.removeErr tempPath
        ⟨⟨false, env.bytesTransferred, env.elapsed⟩, pathExists fs2 tempPath,
          [.tempCreated, .writeComplete, .verifyStat, .verifyOk, .cleanup]⟩
      else
        ⟨⟨true, env.bytesTransferred, env.elapsed⟩, false,
          [.tempCreated, .writeComplete, .verifyStat, .verifyOk, .renamed]⟩

/-- Whether the body stream was reached, i.e. the `downloadedSize` counter
could have been incremented by data events. -/
def streamingStarted (env : DlEnv) : Bool :=
  match env.head with
  | .found _ =>
    env.ensureDirOk && env.hasSpace && (match env.getBody with | .okBody => true | _ => false)
  | _ => false

/-- Characterization of the success path of `downloadFile`: every awaited
step succeeded, including the integrity verification of the staging file. -/
def dlSucceeds (env : DlEnv) (localPath : String) : Bool :=
  match env.head with
  | .found info =>
    env.ensureDirOk && env.hasSpace &&
      (match env.getBody with | .okBody => true | _ => false) && env.pipelineOk &&
      verifyFileIntegrity env.fsAfterWrite env.sha (localPath ++ ".tmp") (some info.size) none &&
      env.moveOk
  | _ => false

/-- No verification event (the `stat` of the staging file) occurs in the
trace before the write-completion signal has been observed. -/
def noVerifyBeforeWrite : List DlEv → Bool
  | [] => true
  | .writeComplete :: _ => true
  | .verifyStat :: _ => false
  | _ :: rest => noVerifyBeforeWrite rest

/-- The atomic rename occurs in the trace only after a successful
verification verdict. -/
def renameOnlyAfterVerifyOk : List DlEv → Bool
  | [] => true
  | .verifyOk :: _ => true
  | .renamed :: _ => false
  | _ :: rest => renameOnlyAfterVerifyOk rest

/-- `S3Service.shouldUpdateFile`: decide whether a local copy must be
refreshed. `head` is the outcome of `getObjectInfo` for the key; the
whole body is wrapped in `try`/`catch` with `return true` on any thrown
error, which the `headErr` branch realizes. -/
def shouldUpdateFile (head : String → HeadResult) (fs : Fs) (s3Key localPath : String) : Bool :=
  match fs localPath with
  | none => true
  | some localStats =>
    match head s3Key with
    | .headErr => true
    | .notFound => false
    | .found info =>
      if localStats.size ≠ info.size then true
      else if info.lastModified > localStats.mtime then true
      else false

/-! ## ModelSyncService (src/services/ModelSyncService.ts) -/

/-- The `bucket` object of a raw S3 event record; a missing `name` field
is the JavaScript value `undefined`. -/
structure BucketJs where
  name : Option String
  deriving DecidableEq

/-- The `object` object of a raw S3 event record; a missing `key` field
is `undefined`. -/
structure S3ObjectJs where
  key : Option String
  deriving DecidableEq

/-- The `s3` object of a raw record; `none` for a missing sub-object means
any field access on it throws a TypeError. -/
structure S3Js where
  bucket : Option BucketJs
  object : Option S3ObjectJs

/-- One element of the `Records` array of a queue message body. `none`
fields are the JavaScript value `undefined`. -/
structure RecordJs where
  eventName : Option String
  s3 : Option S3Js

/-- JavaScript errors that can propagate out of message handling. -/
inductive JsError where
  | typeError
  | uriError
  | parseError
  | downloadFailed
  | notifyError
  deriving DecidableEq

/-- Observable per-record outcomes of `handleS3Event`, each carrying the
decoded key and, where a local path is computed, that path. -/
inductive SyncEv where
  | skippedNonModel (key : String)
  | unparseable (key : String)
  | upToDate (key localPath : String)
  | updated (key localPath : String)
  | deleted (key localPath : String)
  | ignored (key : String)
  deriving DecidableEq

/-- The parsed model event built by `parseModelEvent` (only the fields the
downstream handlers read are kept). -/
structure ModelUpdateEvent where
  type : String
  key : String
  category : String
  modelType : String
  deriving DecidableEq

/-- Environment of the sync engine: the models base path, the
`decodeURIComponent` builtin (which throws a URIError on malformed
percent-encoding), and the outcomes of the collaborators the handlers
await — `shouldUpdateFile` (total, per its own catch-all), `downloadFile`
(total, per its own catch-all), the notification send, and the
`fs.remove` primitive used by cleanup. -/
structure SyncEnv where
  modelsBasePath : String
  decode : String → Except Unit String
  shouldUpdate : String → String → Bool
  download : String → String → DownloadResult
  notifyOk : Bool
  removeErr : String → Bool

/-- `ModelSyncService.getLocalModelPath`: template-literal concatenation
of the base path, a slash and the S3 key. -/
def getLocalModelPath (modelsBasePath s3Key : String) : String :=
  modelsBasePath ++ "/" ++ s3Key

/-- `ModelSyncService.parseModelEvent`: split the decoded key on `/`,
return `null` when it has fewer than two segments; otherwise build the
event object. Evaluating the object literal reads
`record.eventName.includes` and `record.s3.bucket.name`, so a missing
`eventName`, `s3` or `bucket` throws a TypeError inside the function's
`try`, which the `catch` converts to `null`. -/
def parseModelEvent (r : RecordJs) (decodedKey : String) : Option ModelUpdateEvent :=
  let pathParts := jsSplit decodedKey
  if pathParts.length < 2 then none
  else match r.eventName, r.s3 with
    | some en, some s3v =>
      match s3v.bucket with
      | some _ =>
        some { type := if jsIncludes en "ObjectRemoved" then "model_deleted" else "model_updated",
               key := decodedKey,
               category := pathParts.getD 0 "",
               modelType := pathParts.getD 1 "" }
      | none => none
    | _, _ => none

/-- `ModelSyncService.handleModelUpdate`: compute the local path, ask
`shouldUpdateFile`; if no update is needed return; otherwise download;
on success notify the application pods (a notification failure throws and
is rethrown by the handler's catch); a failed download result throws
`Model download failed`, rethrown by the catch. -/
def handleModelUpdate (env : SyncEnv) (fs : Fs) (ev : ModelUpdateEvent) :
    Except JsError (Fs × List SyncEv) :=
  let localPath := getLocalModelPath env.modelsBasePath ev.key
  if ¬ env.shouldUpdate ev.key localPath then .ok (fs, [.upToDate ev.key localPath])
  else
    let dl := env.download ev.key localPath
    if dl.success then
      if env.notifyOk then .ok (fs, [.updated ev.key localPath])
      else .error .notifyError
    else .error .downloadFailed

/-- `ModelSyncService.handleModelDeletion`: compute the local path and
best-effort-delete it via `FileValidator.cleanupTempFile`. Since
`cleanupTempFile` never throws, the handler's own `try`/`catch` never
rethrows and the result is always `ok`. -/
def handleModelDeletion (env : SyncEnv) (fs : Fs) (ev : ModelUpdateEvent) :
    Except JsError (Fs × List SyncEv) :=
  let localPath := getLocalModelPath env.modelsBasePath ev.key
  .ok (cleanupTempFile fs env.removeErr localPath, [.deleted ev.key localPath])

/-- `ModelSyncService.handleS3Event`: read `record.s3.object.key`
(a TypeError when `s3` or `s3.object` is `undefined`), URL-decode it
(`decodeURIComponent(undefined)` yields the string `"undefined"`; a
malformed encoding throws a URIError), filter non-model keys (debug log),
parse the model event (warn and return on `null`), then dispatch on the
event name to the update or the deletion handler; other event kinds are
ignored with a debug log. No per-record `try`/`catch` exists here: any
thrown error propagates to the caller. -/
def handleS3Event (env : SyncEnv) (fs : Fs) (r : RecordJs) :
    Except JsError (Fs × List SyncEv) :=
  match r.s3 with
  | none => .error .typeError
  | some s3v =>
    match s3v.object with
    | none => .error .typeError
    | some obj =>
      let keyE : Except JsError String :=
        match obj.key with
        | none => .ok "undefined"
        | some raw =>
          match env.decode raw with
          | .ok k => .ok k
          | .error _ => .error .uriError
      match keyE with
      | .error e => .error e
      | .ok key =>
        if ¬ isModelFile key then .ok (fs, [.skippedNonModel key])
        else match parseModelEvent r key with
          | none => .ok (fs, [.unparseable key])
          | some ev =>
            match r.eventName with
            | none => .error .typeError
            | some en =>
              if jsIncludes en "ObjectCreated" || jsIncludes en "ObjectModified" then
                handleModelUpdate env fs ev
              else if jsIncludes en "ObjectRemoved" then
                handleModelDeletion env fs ev
              else .ok (fs, [.ignored key])

/-- The `for (const record of s3Event.Records)` loop of `handleMessage`:
records are processed sequentially, threading the filesystem; the first
thrown error aborts the loop and propagates. -/
def handleRecords (env : SyncEnv) (fs : Fs) : List RecordJs → Except JsError (Fs × List SyncEv)
  | [] => .ok (fs, [])
  | r :: rest =>
    match handleS3Event env fs r with
    | .error e => .error e
    | .ok (fs2, evs) =>
      match handleRecords env fs2 rest with
      | .error e => .error e
      | .ok (fs3, evs2) => .ok (fs3, evs ++ evs2)

/-- The parse outcome of a queue message body: `JSON.parse` throws, the
parsed value has no `Records` array, or it has one. -/
inductive MsgBody where
  | invalid
  | notRecords
  | records (rs : List RecordJs)

/-- `ModelSyncService.handleMessage`: an unparseable body throws (logged
and rethrown by the catch, so the message is retried); a body without a
`Records` array is warned about and skipped (the message is then treated
as successfully handled); otherwise every record is processed in array
order with no per-record error isolation. -/
def handleMessage (env : SyncEnv) (fs : Fs) : MsgBody → Except JsError (Fs × List SyncEv)
  | .invalid => .error .parseError
  | .notRecords => .ok (fs, [])
  | .records rs => handleRecords env fs rs

/-- Per-key outcome of the full-sync loop body in `triggerFullSync`:
the key was already up to date, it was downloaded successfully, the
download returned a failure result, or the loop body threw an error with
the given message. -/
inductive KeyOutcome where
  | upToDate
  | downloaded
  | downloadFailed
  | threw (msg : String)
  deriving DecidableEq

/-- The summary object returned by `triggerFullSync`. -/
structure SyncSummary where
  success : Bool
  totalModels : Nat
  syncedModels : Nat
  errors : List String
  duration : Nat
  deriving DecidableEq

/-- The `for (const modelKey of allModels)` loop of `triggerFullSync`,
accumulating the synced counter and the error list in key order; each
iteration is wrapped in its own `try`/`catch`, so one key's failure never
aborts the loop. -/
def syncLoop (outcome : String → KeyOutcome) : List String → Nat × List String
  | [] => (0, [])
  | k :: rest =>
    let step : Nat × List String :=
      match outcome k with
      | .upToDate => (0, [])
      | .downloaded => (1, [])
      | .downloadFailed => (0, ["Failed to download " ++ k])
      | .threw m => (0, ["Error syncing " ++ k ++ ": " ++ m])
    let acc := syncLoop outcome rest
    (step.1 + acc.1, step.2 ++ acc.2)

/-- `ModelSyncService.triggerFullSync` after a successful
`listAllModels` call returning `models`: an empty list returns the early
all-zero success summary; otherwise every key is processed independently
by the loop and the summary reports the totals, the collected errors, the
elapsed duration and `success := errors.length === 0`. -/
def triggerFullSync (models : List String) (outcome : String → KeyOutcome) (elapsed : Nat) :
    SyncSummary :=
  if models.length = 0 then ⟨true, 0, 0, [], elapsed⟩
  else
    let acc := syncLoop outcome models
    ⟨acc.2.isEmpty, models.length, acc.1, acc.2, elapsed⟩

/-- The error message `triggerFullSync` records for a key, if any. -/
def syncErrMsg (outcome : String → KeyOutcome) (k : String) : Option String :=
  match outcome k with
  | .downloadFailed => some ("Failed to download " ++ k)
  | .threw m => some ("Error syncing " ++ k ++ ": " ++ m)
  | _ => none

/-- Whether the full-sync loop counts the key as synced. -/
def isSynced (outcome : String → KeyOutcome) (k : String) : Bool :=
  match outcome k with
  | .downloaded => true
  | _ => false

/-! ## HealthCheckService (src/services/HealthCheckService.ts) -/

/-- The mutable state of `HealthCheckService`: the last successful
processing time (epoch milliseconds, `null` before the first
`updateLastProcessed`) and the stored health flag. -/
structure HealthState where
  lastProcessedTime : Option Int
  isHealthy : Bool
  deriving DecidableEq

/-- The idle threshold of `getHealth`: ten minutes in milliseconds. -/
def maxIdleTime : Int := 10 * 60 * 1000

/-- `HealthCheckService.getHealth` at current time `now`: build the status
string from the stored flag, then, only when a last-processed time exists
and the idle time exceeds the threshold, flip the stored flag to
unhealthy and overwrite the status. Returns the updated state and the
reported status string. -/
def getHealth (now : Int) (s : HealthState) : HealthState × String :=
  let status := if s.isHealthy then "healthy" else "unhealthy"
  match s.lastProcessedTime with
  | some t =>
    if now - t > maxIdleTime then ({ s with isHealthy := false }, "unhealthy")
    else (s, status)
  | none => (s, status)

/-- `HealthCheckService.updateLastProcessed` at current time `now`: set
the last-processed time to now and restore the health flag. -/
def updateLastProcessed (now : Int) (_s : HealthState) : HealthState :=
  { lastProcessedTime := some now, isHealthy := true }

/-! ## Helper lemmas -/

theorem cleanupTempFile_removes (fs : Fs) (removeErr : String → Bool) (p : String)
    (h : removeErr p = false) : cleanupTempFile fs removeErr p p = none := by
  unfold cleanupTempFile
  cases hfs : fs p with
  | none => exact hfs
  | some st => simp [h]

theorem cleanupTempFile_idem (fs : Fs) (removeErr : String → Bool) (p : String) :
    cleanupTempFile (cleanupTempFile fs removeErr p) removeErr p =
      cleanupTempFile fs removeErr p := by
  unfold cleanupTempFile
  cases hfs : fs p with
  | none => simp [hfs]
  | some st =>
    cases hre : removeErr p with
    | true => simp [hfs, hre]
    | false => simp [hfs, hre]

theorem cleanupTempFile_absent (fs : Fs) (removeErr : String → Bool) (p : String)
    (h : fs p = none) : cleanupTempFile fs removeErr p = fs := by
  unfold cleanupTempFile
  simp [h]

theorem handleRecords_append (env : SyncEnv) (fs : Fs) (xs ys : List RecordJs) :
    handleRecords env fs (xs ++ ys) =
      match handleRecords env fs xs with
      | .error e => .error e
      | .ok (fs2, evs) =>
        match handleRecords env fs2 ys with
        | .error e => .error e
        | .ok (fs3, evs2) => .ok (fs3, evs ++ evs2) := by
  induction xs generalizing fs with
  | nil =>
    simp only [List.nil_append, handleRecords]
    cases handleRecords env fs ys with
    | error e => rfl
    | ok r => rfl
  | cons r rest ih =>
    simp only [List.cons_append, handleRecords, List.append_eq]
    cases handleS3Event env fs r with
    | error e => rfl
    | ok p =>
      obtain ⟨fs2, evs⟩ := p
      dsimp only
      rw [ih fs2]
      cases handleRecords env fs2 rest with
      | error e => rfl
      | ok q =>
        obtain ⟨fs3, evs2⟩ := q
        dsimp only
        cases handleRecords env fs3 ys with
        | error e => rfl
        | ok w => simp

theorem syncLoop_eq (outcome : String → KeyOutcome) (ms : List String) :
    syncLoop outcome ms =
      ((ms.filter (isSynced outcome)).length, ms.filterMap (syncErrMsg outcome)) := by
  induction ms with
  | nil => rfl
  | cons k rest ih =>
    simp only [syncLoop, ih, List.filter, List.filterMap]
    cases h : outcome k <;> simp [isSynced, syncErrMsg, h, Nat.add_comm]

theorem filterMap_eq_map_filter (f : α → Option β) (d : β) (ms : List α) :
    ms.filterMap f = (ms.filter fun k => (f k).isSome).map (fun k => (f k).getD d) := by
  induction ms with
  | nil => rfl
  | cons k rest ih =>
    cases h : f k with
    | none => simp [List.filterMap_cons, List.filter_cons, h, ih]
    | some m => simp [List.filterMap_cons, List.filter_cons, h, ih]

theorem isPrefixB_append_self [BEq α] [LawfulBEq α] (xs ys : List α) :
    isPrefixB xs (xs ++ ys) = true := by
  induction xs with
  | nil => rfl
  | cons a as ih => simp [isPrefixB, ih]

theorem splitSlash_ne_nil (l : List Char) : splitSlash l ≠ [] := by
  cases l with
  | nil => simp [splitSlash]
  | cons c cs =>
    unfold splitSlash
    by_cases h : c = '/'
    · simp [h]
    · simp only [h, if_false]
      cases splitSlash cs <;> simp

theorem splitSlash_append (a b : List Char) :
    splitSlash (a ++ '/' :: b) = splitSlash a ++ splitSlash b := by
  induction a with
  | nil => simp [splitSlash]
  | cons c cs ih =>
    by_cases h : c = '/'
    · simp [splitSlash, h, ih, List.append_eq]
    · simp only [List.cons_append, splitSlash, h, if_false, List.append_eq]
      rw [ih]
      cases hs : splitSlash cs with
      | nil => exact absurd hs (splitSlash_ne_nil cs)
      | cons s rest => simp

theorem normAux_append (acc : List (List Char)) (xs ys : List (List Char)) :
    normAux acc (xs ++ ys) = normAux (normAux acc xs) ys := by
  induction xs generalizing acc with
  | nil => rfl
  | cons s rest ih => simp [normAux, ih]

/-- The segments a `..`-free key contributes to a normalized path: the
nonempty, non-`.` ones. -/
def keepSeg (s : List Char) : Bool := ¬ (s = [] ∨ s = ['.'])

theorem normAux_no_dotdot (segs : List (List Char)) (acc : List (List Char))
    (h : ∀ s ∈ segs, s ≠ ['.', '.']) :
    normAux acc segs = acc ++ segs.filter keepSeg := by
  induction segs generalizing acc with
  | nil => simp [normAux]
  | cons s rest ih =>
    have hs : s ≠ ['.', '.'] := h s (List.mem_cons_self s rest)
    have hrest : ∀ t ∈ rest, t ≠ ['.', '.'] := fun t ht => h t (List.mem_cons_of_mem s ht)
    by_cases h1 : s = []
    · simp [normAux, normStep, h1, ih _ hrest, List.filter, keepSeg]
    · by_cases h2 : s = ['.']
      · simp [normAux, normStep, h1, h2, ih _ hrest, List.filter, keepSeg]
      · simp only [normAux, normStep, h1, if_false, h2, hs, ih _ hrest,
          List.filter_cons]
        have : keepSeg s = true := by simp [keepSeg, h1, h2]
        simp [this]

/-! ## Claim theorems -/

/-- C2: `shouldUpdateFile` returns true when no local file exists;
otherwise false when the remote object is absent; otherwise true when the
sizes differ; otherwise true when the remote last-modified time is
strictly newer than the local modification time; otherwise false; and any
unexpected error during the decision (a throwing `getObjectInfo`) makes
it return true. -/
theorem shouldUpdateFile_spec (head : String → HeadResult) (fs : Fs) (s3Key localPath : String) :
    (fs localPath = none → shouldUpdateFile head fs s3Key localPath = true) ∧
    (∀ st, fs localPath = some st → head s3Key = .notFound →
      shouldUpdateFile head fs s3Key localPath = false) ∧
    (∀ st, fs localPath = some st → head s3Key = .headErr →
      shouldUpdateFile head fs s3Key localPath = true) ∧
    (∀ st info, fs localPath = some st → head s3Key = .found info → st.size ≠ info.size →
      shouldUpdateFile head fs s3Key localPath = true) ∧
    (∀ st info, fs localPath = some st → head s3Key = .found info → st.size = info.size →
      info.lastModified > st.mtime → shouldUpdateFile head fs s3Key localPath = true) ∧
    (∀ st info, fs localPath = some st → head s3Key = .found info → st.size = info.size →
      info.lastModified ≤ st.mtime → shouldUpdateFile head fs s3Key localPath = false) := by
  refine ⟨fun h => ?_, fun st h1 h2 => ?_, fun st h1 h2 => ?_,
    fun st info h1 h2 h3 => ?_, fun st info h1 h2 h3 h4 => ?_, fun st info h1 h2 h3 h4 => ?_⟩ <;>
    simp [shouldUpdateFile, *]

/-- C2 witness: the theorem applied at concrete inputs exercising the
no-local-file, size-differs, remote-newer and up-to-date branches. -/
theorem shouldUpdateFile_spec_witness :
    shouldUpdateFile (fun _ => .found ⟨5, 100, ""⟩) (fun _ => none) "k" "/m/k" = true ∧
    shouldUpdateFile (fun _ => .found ⟨5, 100, ""⟩) (fun _ => some ⟨7, 100⟩) "k" "/m/k" = true ∧
    shouldUpdateFile (fun _ => .found ⟨5, 200, ""⟩) (fun _ => some ⟨5, 100⟩) "k" "/m/k" = true ∧
    shouldUpdateFile (fun _ => .found ⟨5, 100, ""⟩) (fun _ => some ⟨5, 100⟩) "k" "/m/k" = false ∧
    shouldUpdateFile (fun _ => .notFound) (fun _ => some ⟨5, 100⟩) "k" "/m/k" = false :=
  ⟨(shouldUpdateFile_spec (fun _ => .found ⟨5, 100, ""⟩) (fun _ => none) "k" "/m/k").1 rfl,
   (shouldUpdateFile_spec (fun _ => .found ⟨5, 100, ""⟩) (fun _ => some ⟨7, 100⟩) "k"
     "/m/k").2.2.2.1 ⟨7, 100⟩ ⟨5, 100, ""⟩ rfl rfl (by decide),
   (shouldUpdateFile_spec (fun _ => .found ⟨5, 200, ""⟩) (fun _ => some ⟨5, 100⟩) "k"
     "/m/k").2.2.2.2.1 ⟨5, 100⟩ ⟨5, 200, ""⟩ rfl rfl rfl (by decide),
   (shouldUpdateFile_spec (fun _ => .found ⟨5, 100, ""⟩) (fun _ => some ⟨5, 100⟩) "k"
     "/m/k").2.2.2.2.2 ⟨5, 100⟩ ⟨5, 100, ""⟩ rfl rfl rfl (by decide),
   (shouldUpdateFile_spec (fun _ => .notFound) (fun _ => some ⟨5, 100⟩) "k" "/m/k").2.1
     ⟨5, 100⟩ rfl rfl⟩

/-- C5 counterexample: the claim states that a provided expected size that
differs from the actual file size makes `verifyFileIntegrity` return
false; but with the provided expected size `0` (a falsy number in
JavaScript) and an actual size of `5` the size check is skipped and the
function returns true. -/
theorem verifyFileIntegrity_zero_size_counterexample :
    (fun p => if p = "f" then some (⟨5, 0⟩ : FileStat) else none) "f" = some ⟨5, 0⟩ ∧
    verifyFileIntegrity (fun p => if p = "f" then some ⟨5, 0⟩ else none)
      (fun _ => .ok "h") "f" (some 0) none = true := by
  constructor
  · rfl
  · rfl

/-- C5 amended: `verifyFileIntegrity` never throws (it is a total
function) and fails closed: it returns false when the target path does
not exist — in particular a missing file when a size check was requested
is a verification failure, not a raised error — when a provided nonzero
expected size differs from the actual size, and when a provided nonempty
expected hash differs from the computed digest (or the digest computation
itself fails). -/
theorem verifyFileIntegrity_fails_closed (fs : Fs) (sha : String → Except Unit String)
    (p : String) (es : Option Nat) (eh : Option String) :
    (fs p = none → verifyFileIntegrity fs sha p es eh = false) ∧
    (∀ st n, fs p = some st → es = some n → n ≠ 0 → st.size ≠ n →
      verifyFileIntegrity fs sha p es eh = false) ∧
    (∀ st h, fs p = some st → eh = some h → h ≠ "" →
      (∀ d, sha p = .ok d → d ≠ h) → verifyFileIntegrity fs sha p es eh = false) := by
  refine ⟨fun h => by simp [verifyFileIntegrity, h], fun st n h1 h2 h3 h4 => ?_,
    fun st h h1 h2 h3 h4 => ?_⟩
  · simp [verifyFileIntegrity, h1, h2, h3, h4]
  · simp only [verifyFileIntegrity, h1, h2]
    split
    · rfl
    · rw [if_pos (show (some h).getD "" ≠ "" from h3)]
      cases hs : sha p with
      | error e => rfl
      | ok d => exact beq_eq_false_iff_ne.mpr (h4 d hs)

/-- C5 amended witness: the theorem applied at concrete inputs for the
missing-file, size-mismatch and hash-mismatch branches. -/
theorem verifyFileIntegrity_fails_closed_witness :
    verifyFileIntegrity (fun _ => none) (fun _ => .ok "h") "f" (some 3) none = false ∧
    verifyFileIntegrity (fun _ => some ⟨5, 0⟩) (fun _ => .ok "h") "f" (some 3) none = false ∧
    verifyFileIntegrity (fun _ => some ⟨5, 0⟩) (fun _ => .ok "h") "f" none (some "x") = false :=
  ⟨(verifyFileIntegrity_fails_closed (fun _ => none) (fun _ => .ok "h") "f" (some 3) none).1 rfl,
   (verifyFileIntegrity_fails_closed (fun _ => some ⟨5, 0⟩) (fun _ => .ok "h") "f" (some 3)
     none).2.1 ⟨5, 0⟩ 3 rfl rfl (by decide) (by decide),
   (verifyFileIntegrity_fails_closed (fun _ => some ⟨5, 0⟩) (fun _ => .ok "h") "f" none
     (some "x")).2.2 ⟨5, 0⟩ "x" rfl rfl (by decide)
     (fun d hd => by injection hd with h2; rw [← h2]; decide)⟩

/-- C9: the deletion path is total and idempotent: `handleModelDeletion`
always returns `ok` (a removal failure is swallowed inside
`cleanupTempFile`, absence of the file is success), running the
underlying cleanup twice equals running it once, and cleanup of an absent
file leaves the filesystem unchanged. -/
theorem handleModelDeletion_total_idempotent (env : SyncEnv) (fs : Fs) (ev : ModelUpdateEvent) :
    (handleModelDeletion env fs ev =
      .ok (cleanupTempFile fs env.removeErr (getLocalModelPath env.modelsBasePath ev.key),
           [.deleted ev.key (getLocalModelPath env.modelsBasePath ev.key)])) ∧
    (cleanupTempFile (cleanupTempFile fs env.removeErr (getLocalModelPath env.modelsBasePath ev.key))
       env.removeErr (getLocalModelPath env.modelsBasePath ev.key) =
      cleanupTempFile fs env.removeErr (getLocalModelPath env.modelsBasePath ev.key)) ∧
    (fs (getLocalModelPath env.modelsBasePath ev.key) = none →
      cleanupTempFile fs env.removeErr (getLocalModelPath env.modelsBasePath ev.key) = fs) :=
  ⟨rfl, cleanupTempFile_idem fs env.removeErr _,
   fun h => cleanupTempFile_absent fs env.removeErr _ h⟩

/-- C9 witness: the theorem applied at a concrete environment with an
empty filesystem: deleting an absent file succeeds and is a no-op. -/
theorem handleModelDeletion_total_idempotent_witness :
    handleModelDeletion
      ⟨"/models", fun s => .ok s, fun _ _ => true, fun _ _ => ⟨true, 0, 0⟩, true, fun _ => false⟩
      (fun _ => none) ⟨"model_deleted", "essential/voice/m.pth", "essential", "voice"⟩ =
      .ok ((fun _ => none : Fs), [.deleted "essential/voice/m.pth"
        "/models/essential/voice/m.pth"]) ∧
    cleanupTempFile (fun _ => none) (fun _ => false) "/models/essential/voice/m.pth" =
      (fun _ => none : Fs) := by
  have h := handleModelDeletion_total_idempotent
    ⟨"/models", fun s => .ok s, fun _ _ => true, fun _ _ => ⟨true, 0, 0⟩, true, fun _ => false⟩
    (fun _ => none) ⟨"model_deleted", "essential/voice/m.pth", "essential", "voice"⟩
  refine ⟨h.1.trans ?_, h.2.2 rfl⟩
  rw [cleanupTempFile_absent _ _ _ rfl]
  rfl

theorem pathExists_cleanup (fs : Fs) (re : String → Bool) (p : String) (h : re p = false) :
    pathExists (cleanupTempFile fs re p) p = false := by
  simp [pathExists, cleanupTempFile_removes fs re p h]

/-- C3: `downloadFile` never throws: it is a total function into a result
object; the result always carries the elapsed wall time and the byte
count transferred so far (zero when streaming never started), and
`success` is true exactly when every step of the
download–verify–install protocol succeeded — any failure yields a
`success = false` result instead of a propagated error. -/
theorem downloadFile_total_result (env : DlEnv) (s3Key localPath : String) :
    (downloadFile env s3Key localPath).result.duration = env.elapsed ∧
    (downloadFile env s3Key localPath).result.size =
      (if streamingStarted env then env.bytesTransferred else 0) ∧
    (downloadFile env s3Key localPath).result.success = dlSucceeds env localPath := by
  obtain ⟨head, ed, hs, gb, bt, po, fsw, sha, re, mv, el⟩ := env
  cases head <;> cases gb <;> cases ed <;> cases hs <;> cases po <;> cases mv <;>
    simp [downloadFile, streamingStarted, dlSucceeds] <;>
    split <;> simp_all

/-- C4: whenever a `downloadFile` invocation fails after the staging file
`localPath ++ ".tmp"` was created (including an integrity failure of the
staging file), a cleanup of the staging file runs before the failure
result is produced, and — provided the removal primitive itself does not
error on that path — the staging file does not persist after the call. -/
theorem downloadFile_cleanup_on_failure (env : DlEnv) (s3Key localPath : String)
    (hrm : env.removeErr (localPath ++ ".tmp") = false)
    (hcreated : DlEv.tempCreated ∈ (downloadFile env s3Key localPath).trace)
    (hfail : (downloadFile env s3Key localPath).result.success = false) :
    (downloadFile env s3Key localPath).tempExists = false ∧
    DlEv.cleanup ∈ (downloadFile env s3Key localPath).trace := by
  obtain ⟨head, ed, hs, gb, bt, po, fsw, sha, re, mv, el⟩ := env
  cases head <;> cases gb <;> cases ed <;> cases hs <;> cases po <;> cases mv <;>
    simp_all [downloadFile, pathExists_cleanup] <;>
    split at hfail <;> simp_all [pathExists_cleanup]

/-- C4 witness: the theorem applied at a concrete environment whose
pipeline write fails midway: the run fails, the staging file was created,
a cleanup runs and no staging file persists. -/
theorem downloadFile_cleanup_on_failure_witness :
    (downloadFile
      ⟨.found ⟨10, 0, ""⟩, true, true, .okBody, 4, false, fun _ => none, fun _ => .ok "",
       fun _ => false, true, 7⟩ "k" "/m/a.pth").tempExists = false ∧
    DlEv.cleanup ∈ (downloadFile
      ⟨.found ⟨10, 0, ""⟩, true, true, .okBody, 4, false, fun _ => none, fun _ => .ok "",
       fun _ => false, true, 7⟩ "k" "/m/a.pth").trace :=
  downloadFile_cleanup_on_failure
    ⟨.found ⟨10, 0, ""⟩, true, true, .okBody, 4, false, fun _ => none, fun _ => .ok "",
     fun _ => false, true, 7⟩ "k" "/m/a.pth" rfl (by decide) rfl

/-- C7: in every `downloadFile` run, no verification step (the stat of
the staging file) appears in the event trace before the completion signal
of the write stream (the resolution of the awaited `pipeline`), and the
atomic rename to the final path appears only after a successful
verification verdict. -/
theorem downloadFile_verify_ordering (env : DlEnv) (s3Key localPath : String) :
    noVerifyBeforeWrite (downloadFile env s3Key localPath).trace = true ∧
    renameOnlyAfterVerifyOk (downloadFile env s3Key localPath).trace = true := by
  obtain ⟨head, ed, hs, gb, bt, po, fsw, sha, re, mv, el⟩ := env
  cases head <;> cases gb <;> cases ed <;> cases hs <;> cases po <;> cases mv <;>
    simp [downloadFile, noVerifyBeforeWrite, renameOnlyAfterVerifyOk] <;>
    (try split) <;> simp [noVerifyBeforeWrite, renameOnlyAfterVerifyOk]

/-- C6: `triggerFullSync` processes each candidate key independently: the
summary reports the total number of candidates, the elapsed duration, the
count of keys actually synced, exactly one error entry per failed key (a
failure result or a thrown error), and `success` is true iff the error
list is empty; in particular when exactly one key `K` fails, the error
list is exactly the one message referencing `K`. -/
theorem triggerFullSync_spec (models : List String) (outcome : String → KeyOutcome)
    (elapsed : Nat) :
    (triggerFullSync models outcome elapsed).totalModels = models.length ∧
    (triggerFullSync models outcome elapsed).duration = elapsed ∧
    (triggerFullSync models outcome elapsed).syncedModels =
      (models.filter (isSynced outcome)).length ∧
    (triggerFullSync models outcome elapsed).errors = models.filterMap (syncErrMsg outcome) ∧
    ((triggerFullSync models outcome elapsed).success = true ↔
      (triggerFullSync models outcome elapsed).errors = []) ∧
    (∀ K, models.filter (fun k => (syncErrMsg outcome k).isSome) = [K] →
      ∃ m, syncErrMsg outcome K = some m ∧
        (triggerFullSync models outcome elapsed).errors = [m]) := by
  by_cases hm : models.length = 0
  · have hnil : models = [] := List.length_eq_zero.mp hm
    subst hnil
    refine ⟨rfl, rfl, rfl, rfl, by simp [triggerFullSync], fun K hK => ?_⟩
    simp at hK
  · have hloop := syncLoop_eq outcome models
    unfold triggerFullSync
    rw [if_neg hm]
    refine ⟨rfl, rfl, ?_, ?_, ?_, fun K hK => ?_⟩
    · simp [hloop]
    · simp [hloop]
    · simp [hloop, List.isEmpty_iff]
    · have hmem : K ∈ models.filter (fun k => (syncErrMsg outcome k).isSome) := by
        rw [hK]; exact List.mem_cons_self K []
      have hsome : (syncErrMsg outcome K).isSome := (List.mem_filter.mp hmem).2
      obtain ⟨m, hmK⟩ := Option.isSome_iff_exists.mp hsome
      refine ⟨m, hmK, ?_⟩
      simp only [hloop]
      rw [filterMap_eq_map_filter (syncErrMsg outcome) "" models, hK]
      simp [hmK]

/-- C6 witness: the theorem applied at three concrete candidate keys of
which exactly the middle one fails to download: two keys synced, one
error entry referencing the failing key, overall success false. -/
theorem triggerFullSync_spec_witness :
    (triggerFullSync ["a", "b", "c"]
      (fun k => if k = "b" then .downloadFailed else .downloaded) 9).syncedModels = 2 ∧
    ∃ m, syncErrMsg (fun k => if k = "b" then .downloadFailed else .downloaded) "b" = some m ∧
      (triggerFullSync ["a", "b", "c"]
        (fun k => if k = "b" then .downloadFailed else .downloaded) 9).errors = [m] := by
  have h := triggerFullSync_spec ["a", "b", "c"]
    (fun k => if k = "b" then .downloadFailed else .downloaded) 9
  refine ⟨?_, h.2.2.2.2.2 "b" (by decide)⟩
  rw [h.2.2.1]
  decide

theorem handleModelUpdate_paths (env : SyncEnv) (fs : Fs) (ev : ModelUpdateEvent)
    (fs2 : Fs) (evs : List SyncEv) (h : handleModelUpdate env fs ev = .ok (fs2, evs)) :
    ∀ k lp, (SyncEv.updated k lp ∈ evs ∨ SyncEv.upToDate k lp ∈ evs ∨
      SyncEv.deleted k lp ∈ evs) → lp = getLocalModelPath env.modelsBasePath k := by
  intro k lp hmem
  simp only [handleModelUpdate] at h
  split at h
  · simp only [Except.ok.injEq, Prod.mk.injEq] at h
    obtain ⟨hfs, hevs⟩ := h
    subst hevs
    rcases hmem with hm | hm | hm <;> simp_all
  · split at h
    · split at h
      · simp only [Except.ok.injEq, Prod.mk.injEq] at h
        obtain ⟨hfs, hevs⟩ := h
        subst hevs
        rcases hmem with hm | hm | hm <;> simp_all
      · exact absurd h (by simp)
    · exact absurd h (by simp)

theorem handleModelDeletion_paths (env : SyncEnv) (fs : Fs) (ev : ModelUpdateEvent)
    (fs2 : Fs) (evs : List SyncEv) (h : handleModelDeletion env fs ev = .ok (fs2, evs)) :
    ∀ k lp, (SyncEv.updated k lp ∈ evs ∨ SyncEv.upToDate k lp ∈ evs ∨
      SyncEv.deleted k lp ∈ evs) → lp = getLocalModelPath env.modelsBasePath k := by
  intro k lp hmem
  simp only [handleModelDeletion, Except.ok.injEq, Prod.mk.injEq] at h
  obtain ⟨hfs, hevs⟩ := h
  subst hevs
  rcases hmem with hm | hm | hm <;> simp_all

theorem handleS3Event_paths (env : SyncEnv) (fs : Fs) (r : RecordJs) (fs2 : Fs)
    (evs : List SyncEv) (h : handleS3Event env fs r = .ok (fs2, evs)) :
    ∀ k lp, (SyncEv.updated k lp ∈ evs ∨ SyncEv.upToDate k lp ∈ evs ∨
      SyncEv.deleted k lp ∈ evs) → lp = getLocalModelPath env.modelsBasePath k := by
  intro k lp hmem
  obtain ⟨en, s3⟩ := r
  cases s3 with
  | none => simp [handleS3Event] at h
  | some s3v =>
    obtain ⟨bucket, object⟩ := s3v
    cases object with
    | none => simp [handleS3Event] at h
    | some obj =>
      simp only [handleS3Event] at h
      iterate 8 (all_goals try split at h)
      all_goals
        first
          | exact handleModelUpdate_paths env fs _ fs2 evs h k lp hmem
          | exact handleModelDeletion_paths env fs _ fs2 evs h k lp hmem
          | (simp only [Except.ok.injEq, Prod.mk.injEq] at h
             obtain ⟨hfs, hevs⟩ := h
             subst hevs
             rcases hmem with hm | hm | hm <;> simp_all)
          | simp_all

/-- Concrete environment for the C8 theorems: identity URL-decoding (the
keys involved contain no percent-escapes), always-needed updates,
successful downloads and notifications, and a removal primitive that
never errors. -/
def envC8 : SyncEnv :=
  ⟨"/models", fun s => .ok s, fun _ _ => true, fun _ _ => ⟨true, 0, 0⟩, true, fun _ => false⟩

/-- A removal event record whose object key contains a `..` segment. -/
def recC8 : RecordJs :=
  ⟨some "ObjectRemoved:Delete", some ⟨some ⟨some "b"⟩, some ⟨some "../evil.pth"⟩⟩⟩

/-- C8 counterexample: the claim states every computed local path lies
under the base path tree, but a key with a `..` segment passes the model
filter and the two-segment parse, and the deletion path then operates on
`/models/../evil.pth`, which after path normalization lies outside the
`/models` tree. -/
theorem handleS3Event_escapes_base :
    handleS3Event envC8 (fun _ => none) recC8 =
      .ok ((fun _ => none : Fs), [.deleted "../evil.pth" "/models/../evil.pth"]) ∧
    underBase "/models" "/models/../evil.pth" = false :=
  ⟨rfl, rfl⟩

/-- C8 amended: the local artifact path used by the update path and the
deletion path equals the base local root joined with the URL-decoded
object key (preserving the category/subtype segments), and — provided the
decoded key contains no `..` segment — that path lies under the base path
tree. -/
theorem getLocalModelPath_under_base (base key : String) (env : SyncEnv) (fs : Fs)
    (r : RecordJs) :
    (getLocalModelPath base key = base ++ "/" ++ key) ∧
    ((∀ s ∈ splitSlash key.data, s ≠ ['.', '.']) →
      underBase base (getLocalModelPath base key) = true) ∧
    (∀ fs2 evs, handleS3Event env fs r = .ok (fs2, evs) →
      ∀ k lp, (SyncEv.updated k lp ∈ evs ∨ SyncEv.upToDate k lp ∈ evs ∨
        SyncEv.deleted k lp ∈ evs) → lp = getLocalModelPath env.modelsBasePath k) := by
  refine ⟨rfl, fun hnd => ?_,
    fun fs2 evs h k lp hmem => handleS3Event_paths env fs r fs2 evs h k lp hmem⟩
  unfold underBase normalizePath getLocalModelPath
  have hdata : (base ++ "/" ++ key).data = base.data ++ '/' :: key.data := by
    rw [String.data_append, String.data_append]
    simp
  rw [hdata, splitSlash_append, normAux_append, normAux_no_dotdot _ _ hnd]
  exact isPrefixB_append_self _ _

/-- C8 amended witness: the theorem applied at the base `/models` and a
regular two-segment key: the computed path is the concatenation and lies
under the base tree. -/
theorem getLocalModelPath_under_base_witness :
    getLocalModelPath "/models" "essential/voice/m.pth" = "/models/essential/voice/m.pth" ∧
    underBase "/models" (getLocalModelPath "/models" "essential/voice/m.pth") = true := by
  have h := getLocalModelPath_under_base "/models" "essential/voice/m.pth" envC8
    (fun _ => none) recC8
  exact ⟨h.1.trans rfl, h.2.1 (by decide)⟩

/-- Concrete environment for the C1 theorems: identity URL-decoding,
always-needed updates, successful downloads and notifications. -/
def envC1 : SyncEnv :=
  ⟨"/models", fun s => .ok s, fun _ _ => true, fun _ _ => ⟨true, 100, 5⟩, true, fun _ => false⟩

/-- A malformed record: its `s3` member is missing entirely, so reading
`record.s3.object.key` throws a TypeError. -/
def badC1 : RecordJs := ⟨some "ObjectCreated:Put", none⟩

/-- A well-formed creation record for a model key. -/
def goodC1 : RecordJs :=
  ⟨some "ObjectCreated:Put", some ⟨some ⟨some "b"⟩, some ⟨some "essential/voice/m.pth"⟩⟩⟩

/-- C1 counterexample: the claim states a malformed record is skipped
with a warning, the remaining records still process, and the message is
then treated as successfully handled; but a message pairing a record with
a missing `s3` structure and a well-formed record raises a TypeError
(which `handleMessage` rethrows, so the message is retried, not
succeeded), even though the sibling record alone would process fine. -/
theorem handleMessage_malformed_raises :
    handleMessage envC1 (fun _ => none) (.records [badC1, goodC1]) = .error .typeError ∧
    handleS3Event envC1 (fun _ => none) goodC1 =
      .ok ((fun _ => none : Fs),
        [.updated "essential/voice/m.pth" "/models/essential/voice/m.pth"]) :=
  ⟨rfl, rfl⟩

/-- C1 amended: processing a message whose `Records` array contains a
record lacking the `s3` (or `s3.object`) structure raises a TypeError
that fails the whole message (records after it are not processed and the
message is retried); only a record lacking just the `s3.object.key` field
is tolerated — `decodeURIComponent(undefined)` yields the string
`"undefined"`, which fails the model-file filter, so that record is
skipped (with a debug log, not a warning) and the remaining records still
process. -/
theorem handleMessage_malformed_record (env : SyncEnv) (fs : Fs)
    (pre post : List RecordJs) (bad : RecordJs) :
    ((∃ fsmid evs, handleRecords env fs pre = .ok (fsmid, evs)) →
      (bad.s3 = none ∨ ∃ v, bad.s3 = some v ∧ v.object = none) →
      handleMessage env fs (.records (pre ++ bad :: post)) = .error .typeError) ∧
    (∀ v obj, bad.s3 = some v → v.object = some obj → obj.key = none →
      handleRecords env fs (bad :: post) =
        (handleRecords env fs post).map
          (fun res => (res.1, .skippedNonModel "undefined" :: res.2))) := by
  constructor
  · rintro ⟨fsmid, evs, hpre⟩ hbad
    have hbadev : handleS3Event env fsmid bad = .error .typeError := by
      rcases hbad with hnone | ⟨v, hv, hobj⟩
      · simp [handleS3Event, hnone]
      · simp [handleS3Event, hv, hobj]
    show handleRecords env fs (pre ++ bad :: post) = .error .typeError
    rw [handleRecords_append, hpre]
    simp [handleRecords, hbadev]
  · intro v obj hv hobj hkey
    have hmodel : isModelFile "undefined" = false := by decide
    have hbadev : handleS3Event env fs bad = .ok (fs, [.skippedNonModel "undefined"]) := by
      simp [handleS3Event, hv, hobj, hkey, hmodel]
    simp only [handleRecords, hbadev]
    cases hrest : handleRecords env fs post with
    | error e => rfl
    | ok q =>
      obtain ⟨fs3, evs2⟩ := q
      simp [Except.map]

/-- C1 amended witness: the theorem applied at a concrete message holding
only the record with the missing `s3` structure: handling it raises a
TypeError. -/
theorem handleMessage_malformed_record_witness :
    handleMessage envC1 (fun _ => none) (.records [badC1]) = .error .typeError :=
  (handleMessage_malformed_record envC1 (fun _ => none) [] [] badC1).1
    ⟨(fun _ => none), [], rfl⟩ (Or.inl rfl)

/-- C10: when the last-processed timestamp is unset, `getHealth` never
flips the stored health flag (the whole state is returned unchanged), no
matter what the current time is; and every `updateLastProcessed` call
sets the timestamp and restores the flag to healthy. -/
theorem getHealth_unset_timestamp (now : Int) (s : HealthState) :
    (s.lastProcessedTime = none → (getHealth now s).1 = s) ∧
    (updateLastProcessed now s).isHealthy = true ∧
    (updateLastProcessed now s).lastProcessedTime = some now := by
  refine ⟨fun h => ?_, rfl, rfl⟩
  simp [getHealth, h]

/-- C10 witness: the theorem applied at a long-idle unset-timestamp state:
after an arbitrary amount of elapsed time the flag is still true. -/
theorem getHealth_unset_timestamp_witness :
    (getHealth 999999999999 ⟨none, true⟩).1 = ⟨none, true⟩ ∧
    (updateLastProcessed 42 ⟨none, true⟩).isHealthy = true :=
  ⟨(getHealth_unset_timestamp 999999999999 ⟨none, true⟩).1 rfl,
   (getHealth_unset_timestamp 42 ⟨none, true⟩).2.1⟩

end ModelSync
